import Mathlib

/-!
Verification of the `create-mono-init` scaffolding generator.

Shallow embedding of the scaffold pipeline:
  * `src/prompts.ts` — `ProjectKind`, `ScaffoldPlan`, `toSafeFolderName`;
  * `src/scaffold/fs.ts` — `ensureEmptyDir`;
  * `src/scaffold/create-project.ts` — `bootstrapTurborepo`,
    `normalizeTurborepo`, `patchRootPackageJson`, `templatesDir`;
  * `src/scaffold/post-create.ts` — `postCreate`;
  * `src/index.ts` — the overall entry pipeline.

Filesystem-effecting code is embedded as explicit state passing
(directory maps, file maps) plus a trace of the external actions the
pipeline performs, in program order.
-/

namespace CreateMonoInit

/-- `ProjectKind` from src/prompts.ts: `"web" | "app" | "full"`. -/
inductive ProjectKind where
  | web
  | app
  | full
deriving DecidableEq, Repr

/-- `ScaffoldPlan` from src/prompts.ts. -/
structure ScaffoldPlan where
  projectName : String
  kind : ProjectKind
  install : Bool
  git : Bool
deriving DecidableEq, Repr

/-- The boolean test `plan.kind === "web" || plan.kind === "full"`
(create-project.ts line 267). -/
def wantsWeb (k : ProjectKind) : Bool :=
  match k with
  | .web => true
  | .full => true
  | .app => false

/-- The boolean test `plan.kind === "app" || plan.kind === "full"`
(create-project.ts line 271). -/
def wantsApp (k : ProjectKind) : Bool :=
  match k with
  | .app => true
  | .full => true
  | .web => false

/-! ### The project-name sanitizer (src/prompts.ts, `toSafeFolderName`)

```
input.trim()
  .replace(/[<>:"/\\|?*\u0000-\u001F]/g, "-")
  .replace(/\s+/g, "-")
```
Strings are modelled as their character lists. -/

/-- The character class `[<>:"/\\|?*\u0000-\u001F]` of the first regex. -/
def isIllegalChar (c : Char) : Bool :=
  c = '<' || c = '>' || c = ':' || c = '"' || c = '/' || c = '\\' ||
  c = '|' || c = '?' || c = '*' || c.val ≤ 0x1F

/-- The JavaScript whitespace class `\s` (also the set removed by
`String.prototype.trim`): tab through carriage return, space, NBSP,
the Unicode space separators, line/paragraph separators, and BOM. -/
def isJsSpace (c : Char) : Bool :=
  (9 ≤ c.val && c.val ≤ 13) || c.val = 0x20 || c.val = 0xA0 ||
  c.val = 0x1680 || (0x2000 ≤ c.val && c.val ≤ 0x200A) ||
  c.val = 0x2028 || c.val = 0x2029 || c.val = 0x202F ||
  c.val = 0x205F || c.val = 0x3000 || c.val = 0xFEFF

/-- `input.trim()`: drop leading and trailing JavaScript whitespace. -/
def jsTrim (l : List Char) : List Char :=
  ((l.dropWhile isJsSpace).reverse.dropWhile isJsSpace).reverse

/-- `.replace(/[<>:"/\\|?*\u0000-\u001F]/g, "-")`: every character of the
class becomes a single hyphen. -/
def replaceIllegal (l : List Char) : List Char :=
  l.map (fun c => if isIllegalChar c then '-' else c)

/-- `.replace(/\s+/g, "-")`: each maximal run of whitespace becomes one
hyphen. The boolean argument records whether we are inside a run whose
hyphen has already been emitted. -/
def collapseSpacesAux : Bool → List Char → List Char
  | _, [] => []
  | inRun, c :: rest =>
    if isJsSpace c then
      if inRun then collapseSpacesAux true rest
      else '-' :: collapseSpacesAux true rest
    else c :: collapseSpacesAux false rest

/-- `.replace(/\s+/g, "-")` on a whole string. -/
def collapseSpaces (l : List Char) : List Char :=
  collapseSpacesAux false l

/-- `toSafeFolderName` from src/prompts.ts lines 20-25. -/
def toSafeFolderName (s : String) : String :=
  ⟨collapseSpaces (replaceIllegal (jsTrim s.data))⟩

/-! ### Directory-level filesystem model

A filesystem is a finite map from a directory path to its entry list;
a path not in the map does not exist.  Used by the guard in
src/scaffold/fs.ts and by `bootstrapTurborepo`. -/

/-- Finite map from directory path to the list of its entries. -/
abbrev FsDirs := List (String × List String)

/-- `fs.readdir`/`fs.pathExists` combined: the entries of `dir`, or
`none` when the directory does not exist. -/
def lookupDir (fs : FsDirs) (dir : String) : Option (List String) :=
  (fs.find? (fun e => e.1 = dir)).map (fun e => e.2)

/-- `fs.mkdirp dir` on a missing directory: record it with no entries. -/
def insertDir (fs : FsDirs) (dir : String) : FsDirs :=
  (dir, []) :: fs

/-- The error taxonomy of the scaffold pipeline. -/
inductive ScaffoldError where
  | directoryNotEmpty (path : String)
  | stepFailed
deriving DecidableEq, Repr

/-- `ensureEmptyDir` from src/scaffold/fs.ts lines 3-12: if `dir` exists
and has entries, throw (naming the path); if it exists empty, do
nothing; if it does not exist, create it.  The returned pair is the
filesystem after the call and the thrown error, if any. -/
def ensureEmptyDir (fs : FsDirs) (dir : String) :
    FsDirs × Option ScaffoldError :=
  match lookupDir fs dir with
  | some entries =>
    if entries.length > 0 then (fs, some (.directoryNotEmpty dir))
    else (fs, none)
  | none => (insertDir fs dir, none)

/-! ### The traced pipeline

Each externally visible operation of the pipeline is one `Action`.
`createProject`/`postCreate` are embedded as the list of actions they
perform in program order, plus the error that aborts them, if any. -/

/-- One externally visible step of the pipeline. -/
inductive Action where
  /-- `fs.remove` (create-project.ts line 50). -/
  | removeDir (path : String)
  /-- `pnpm dlx create-turbo@latest …` (create-project.ts lines 53-67). -/
  | execCreateTurbo (cwd dirName : String)
  /-- `fs.mkdirp` (create-project.ts lines 234-235). -/
  | mkdirp (path : String)
  /-- `fs.emptyDir` (create-project.ts lines 236-237). -/
  | emptyDir (path : String)
  /-- `fs.writeFile` of a root-level file (create-project.ts lines 242-246). -/
  | writeFile (path content : String)
  /-- `fs.copy` of a shipped template tree (create-project.ts lines 250-265). -/
  | copyTemplate (templateId dest : String)
  /-- `patchRootPackageJson` (create-project.ts line 260). -/
  | patchRootPkg (rootDir : String)
  /-- `pnpm dlx create-next-app@latest apps/web …` (create-project.ts lines 70-88). -/
  | execCreateNext (cwd : String)
  /-- `pnpm dlx create-expo-app@latest apps/app …` (create-project.ts lines 90-104). -/
  | execCreateExpo (cwd : String)
  /-- `setupNativeWindExpo` (create-project.ts lines 106-208). -/
  | setupNativeWind (appDir : String)
  /-- `runCommand(rootDir, "pnpm", ["install"])` (post-create.ts). -/
  | runInstall (cwd : String)
  /-- `runCommand(rootDir, "git", ["init"])` (post-create.ts). -/
  | runGitInit (cwd : String)
deriving DecidableEq, Repr

/-- The fixed workspace manifest content written at
create-project.ts line 241:
`packages:\n  - "apps/*"\n  - "packages/*"\n`. -/
def workspaceYamlContent : String :=
  "packages:\n  - \"apps/*\"\n  - \"packages/*\"\n"

/-- The actions of `normalizeTurborepo` (create-project.ts lines
226-275), in program order. -/
def normalizeTurborepo (rootDir : String) (plan : ScaffoldPlan) :
    List Action :=
  [.mkdirp (rootDir ++ "/apps"),
   .mkdirp (rootDir ++ "/packages"),
   .emptyDir (rootDir ++ "/apps"),
   .emptyDir (rootDir ++ "/packages"),
   .writeFile (rootDir ++ "/pnpm-workspace.yaml") workspaceYamlContent,
   .copyTemplate "root/biome.json" (rootDir ++ "/biome.json"),
   .copyTemplate "root/.npmrc" (rootDir ++ "/.npmrc"),
   .patchRootPkg rootDir,
   .copyTemplate "api" (rootDir ++ "/apps/api")]
  ++ (if wantsWeb plan.kind then [.execCreateNext rootDir] else [])
  ++ (if wantsApp plan.kind then
        [.execCreateExpo rootDir,
         .setupNativeWind (rootDir ++ "/apps/app")]
      else [])

/-- Runs a planned action list left to right against an oracle `execOk`
telling which actions succeed; stops at (and records) the first failing
action.  Returns the actions actually performed and whether all
succeeded. -/
def runSeq (execOk : Action → Bool) : List Action → List Action × Bool
  | [] => ([], true)
  | a :: rest =>
    if execOk a then
      let r := runSeq execOk rest
      (a :: r.1, r.2)
    else ([a], false)

/-- `createProject` (create-project.ts lines 22-29) at action
granularity: the guard of `bootstrapTurborepo` (lines 43-51) runs
first and throws before anything else when the target directory exists
and is nonempty; otherwise the bootstrap command and normalization run
in order. -/
def createProject (execOk : Action → Bool) (fs : FsDirs) (cwd : String)
    (plan : ScaffoldPlan) : List Action × Option ScaffoldError :=
  let rootDir := cwd ++ "/" ++ plan.projectName
  let planned :=
    (match lookupDir fs rootDir with
     | some _ => [Action.removeDir rootDir]
     | none => [])
    ++ [Action.execCreateTurbo cwd plan.projectName]
    ++ normalizeTurborepo rootDir plan
  match lookupDir fs rootDir with
  | some entries =>
    if entries.length > 0 then ([], some (.directoryNotEmpty rootDir))
    else
      let r := runSeq execOk planned
      (r.1, if r.2 then none else some .stepFailed)
  | none =>
    let r := runSeq execOk planned
    (r.1, if r.2 then none else some .stepFailed)

/-- `postCreate` from src/scaffold/post-create.ts: the planned post
actions, gated by the plan flags. -/
def postCreate (rootDir : String) (plan : ScaffoldPlan) : List Action :=
  (if plan.install then [Action.runInstall rootDir] else [])
  ++ (if plan.git then [Action.runGitInit rootDir] else [])

/-- The entry pipeline of src/index.ts: `createProject` then, only
when it succeeded, `postCreate`. -/
def mainPipeline (execOk : Action → Bool) (fs : FsDirs) (cwd : String)
    (plan : ScaffoldPlan) : List Action × Option ScaffoldError :=
  match createProject execOk fs cwd plan with
  | (tr, some e) => (tr, some e)
  | (tr, none) =>
    let r := runSeq execOk (postCreate (cwd ++ "/" ++ plan.projectName) plan)
    (tr ++ r.1, if r.2 then none else some .stepFailed)

/-! ### Directory contents of `apps/` and `packages/` after normalization

`normalizeTurborepo` first empties both directories
(create-project.ts lines 234-237) and then repopulates `apps/`:
the `api` template copy (line 263), `create-next-app` writing
`apps/web` (lines 267-269), `create-expo-app` writing `apps/app`
(lines 271-274). -/

/-- The entry lists of `<root>/apps` and `<root>/packages`. -/
structure RepoDirs where
  appsEntries : List String
  packagesEntries : List String
deriving DecidableEq, Repr

/-- Effect of a successful `normalizeTurborepo` run on the two
directories, from an arbitrary starting state. -/
def normalizeDirs (_st : RepoDirs) (plan : ScaffoldPlan) : RepoDirs :=
  let st : RepoDirs := { appsEntries := [], packagesEntries := [] }
  let st := { st with appsEntries := st.appsEntries ++ ["api"] }
  let st :=
    if wantsWeb plan.kind then
      { st with appsEntries := st.appsEntries ++ ["web"] }
    else st
  if wantsApp plan.kind then
    { st with appsEntries := st.appsEntries ++ ["app"] }
  else st

/-! ### Root package manifest patching (create-project.ts lines 310-322)

A JSON object's string-valued fields are an association list in
insertion order; `obj.k ??= v` appends `(k, v)` only when `k` is
absent. -/

/-- A JSON object with string values, in insertion order. -/
abbrev JsonObj := List (String × String)

/-- Field lookup. -/
def getVal (o : JsonObj) (k : String) : Option String :=
  (o.find? (fun e => e.1 = k)).map (fun e => e.2)

/-- `obj[k] ??= v`: append `(k, v)` only when `k` has no value yet. -/
def setIfAbsent (o : JsonObj) (k v : String) : JsonObj :=
  if (getVal o k).isSome then o else o ++ [(k, v)]

/-- The root `package.json` fields the patch touches; `none` models a
missing `scripts`/`devDependencies` field. -/
structure PackageJson where
  scripts : Option JsonObj
  devDependencies : Option JsonObj
deriving Repr

/-- `patchRootPackageJson` from create-project.ts lines 310-322:
`scripts ??= {}`, `scripts.check ??= "biome check ."`,
`scripts.format ??= "biome check . --write"`,
`devDependencies ??= {}`,
`devDependencies["@biomejs/biome"] ??= "^2.3.10"`. -/
def patchRootPackageJson (pkg : PackageJson) : PackageJson :=
  let scripts := pkg.scripts.getD []
  let scripts := setIfAbsent scripts "check" "biome check ."
  let scripts := setIfAbsent scripts "format" "biome check . --write"
  let dev := pkg.devDependencies.getD []
  let dev := setIfAbsent dev "@biomejs/biome" "^2.3.10"
  { scripts := some scripts, devDependencies := some dev }

/-! ### The workspace manifest as a `packages:` list (claim C1)

The code writes the constant `workspaceYamlContent` for every plan;
the serializer below renders an entry list in that same one-quoted-glob
-per-line layout, so the two views can be compared. -/

/-- Renders a `packages:` entry list the way create-project.ts line 241
lays it out: `packages:` then one `  - "<entry>"` line per entry. -/
def serializeWorkspace (entries : List String) : String :=
  entries.foldl (fun acc e => acc ++ "  - \"" ++ e ++ "\"\n") "packages:\n"

/-- The entry list the code's manifest consists of: the constant
written at create-project.ts line 241, for every plan. -/
def workspaceEntries (_plan : ScaffoldPlan) : List String :=
  ["apps/*", "packages/*"]

/-- The entry list claim C1 describes (spec wording, for comparison
with `workspaceEntries`): `api`, then `web` iff the kind wants web,
then `app` iff the kind wants app, then a trailing wildcard entry. -/
def specWorkspaceEntries (k : ProjectKind) (wildcard : String) :
    List String :=
  "api" :: ((if wantsWeb k then ["web"] else [])
    ++ (if wantsApp k then ["app"] else []) ++ [wildcard])

/-! ### Template-tree resolution (create-project.ts lines 286-300)

Paths are segment lists; `path.dirname` drops the last segment,
`path.join dir "templates"` appends one.  `ex` stands for
`nodeFs.existsSync`. -/

/-- The `TemplateTreeNotFound` condition, carrying the directory the
search started from (the code interpolates that directory into the
thrown message). -/
inductive TemplatesError where
  | templateTreeNotFound (startDir : List String)
deriving DecidableEq, Repr

/-- `i`-fold `path.dirname`. -/
def nthParent : Nat → List String → List String
  | 0, d => d
  | n + 1, d => nthParent n d.dropLast

/-- The loop body of `templatesDir`: with `fuel` iterations left,
check `dir ++ ["templates"]`, else move to the parent; when fuel runs
out, throw naming the starting directory. -/
def searchUp (ex : List String → Bool) (start : List String) :
    Nat → List String → Except TemplatesError (List String)
  | 0, _ => .error (.templateTreeNotFound start)
  | n + 1, dir =>
    if ex (dir ++ ["templates"]) then .ok (dir ++ ["templates"])
    else searchUp ex start n dir.dropLast

/-- `templatesDir` from create-project.ts lines 286-300: search upward
from the program's own directory `start`, at most 6 levels. -/
def templatesDir (ex : List String → Bool) (start : List String) :
    Except TemplatesError (List String) :=
  searchUp ex start 6 start

/-! ### Template materialization (`fs.copy` with `overwrite: true`)

A file store maps absolute file paths (segment lists) to byte
contents; a template tree is a list of (relative path, content)
pairs.  `materialize` writes every file of the tree under `dest`,
replacing whatever was there, and leaves every other path alone. -/

/-- File store: absolute path to file content. -/
abbrev Files := List String → Option String

/-- `fs.copy(tree, dest, { overwrite: true })`: write each file of the
template tree at its destination path, replacing existing content. -/
def materialize (tree : List (List String × String)) (dest : List String)
    (fs : Files) : Files :=
  tree.foldl
    (fun acc e => fun p => if p = dest ++ e.1 then some e.2 else acc p)
    fs

/-! ## Supporting lemmas -/

/-- Characters surviving the whitespace-collapsing pass are hyphens or
non-whitespace characters of the input. -/
theorem mem_collapseSpacesAux (l : List Char) :
    ∀ (b : Bool) (c : Char), c ∈ collapseSpacesAux b l →
      c = '-' ∨ (c ∈ l ∧ isJsSpace c = false) := by
  induction l with
  | nil => intro b c h; simp [collapseSpacesAux] at h
  | cons a rest ih =>
    intro b c h
    by_cases ha : isJsSpace a
    · cases b with
      | true =>
        simp only [collapseSpacesAux, ha, if_pos, if_true] at h
        rcases ih true c h with h1 | ⟨h2, h3⟩
        · exact Or.inl h1
        · exact Or.inr ⟨List.mem_cons_of_mem a h2, h3⟩
      | false =>
        simp only [collapseSpacesAux, ha, if_pos, if_false] at h
        rcases List.mem_cons.mp h with h1 | h1
        · exact Or.inl h1
        · rcases ih true c h1 with h2 | ⟨h3, h4⟩
          · exact Or.inl h2
          · exact Or.inr ⟨List.mem_cons_of_mem a h3, h4⟩
    · simp only [collapseSpacesAux, ha, if_neg, Bool.false_eq_true,
        if_false] at h
      rcases List.mem_cons.mp h with h1 | h1
      · subst h1
        exact Or.inr ⟨List.mem_cons_self c rest, by simpa using ha⟩
      · rcases ih false c h1 with h2 | ⟨h3, h4⟩
        · exact Or.inl h2
        · exact Or.inr ⟨List.mem_cons_of_mem a h3, h4⟩

/-- Characters surviving the illegal-character pass are hyphens or
legal characters. -/
theorem mem_replaceIllegal (l : List Char) (c : Char)
    (h : c ∈ replaceIllegal l) : c = '-' ∨ isIllegalChar c = false := by
  rcases List.mem_map.mp h with ⟨a, _, ha⟩
  by_cases hi : isIllegalChar a
  · left; rw [← ha]; simp [hi]
  · right; rw [← ha]; simp [hi]

/-- Field lookup distributes over object concatenation: the left
object wins. -/
theorem getVal_append (o rest : JsonObj) (k : String) :
    getVal (o ++ rest) k =
      match getVal o k with
      | some w => some w
      | none => getVal rest k := by
  induction o with
  | nil => rfl
  | cons a o ih =>
    by_cases h : a.1 = k
    · simp [getVal, List.find?, h]
    · simpa [getVal, List.find?, h] using ih

/-- `setIfAbsent` keeps every key that already has a value. -/
theorem getVal_setIfAbsent_of_some (o : JsonObj) (k v k' w : String)
    (h : getVal o k' = some w) :
    getVal (setIfAbsent o k v) k' = some w := by
  unfold setIfAbsent
  by_cases hk : (getVal o k).isSome
  · simp [hk, h]
  · simp only [hk, if_false, Bool.false_eq_true, getVal_append, h]

/-- `setIfAbsent` leaves every other key's value unchanged. -/
theorem getVal_setIfAbsent_other (o : JsonObj) (k v k' : String)
    (h : k' ≠ k) :
    getVal (setIfAbsent o k v) k' = getVal o k' := by
  unfold setIfAbsent
  by_cases hk : (getVal o k).isSome
  · simp [hk]
  · simp only [hk, if_false, Bool.false_eq_true, getVal_append]
    cases hv : getVal o k' with
    | some w => rfl
    | none =>
      have hne : ¬ k = k' := fun hh => h hh.symm
      simp [getVal, List.find?, hne]

/-- `setIfAbsent` fills in an absent key with the given value. -/
theorem getVal_setIfAbsent_absent (o : JsonObj) (k v : String)
    (h : getVal o k = none) :
    getVal (setIfAbsent o k v) k = some v := by
  unfold setIfAbsent
  simp only [h, Option.isSome_none, Bool.false_eq_true, if_false,
    getVal_append]
  simp [getVal, List.find?]

/-! ## Claim theorems -/

/-- C9: every character of the sanitized `projectName` is neither an
illegal filesystem character (`< > : " / \ | ? *` or a control
character U+0000–U+001F) nor a whitespace character; the sanitizer
trims and replaces illegal characters and whitespace runs with
hyphens. -/
theorem toSafeFolderName_safe (s : String) (c : Char)
    (h : c ∈ (toSafeFolderName s).data) :
    isIllegalChar c = false ∧ isJsSpace c = false := by
  have h' : c ∈ collapseSpaces (replaceIllegal (jsTrim s.data)) := h
  rcases mem_collapseSpacesAux _ false c h' with h1 | ⟨h2, h3⟩
  · subst h1; exact ⟨by decide, by decide⟩
  · rcases mem_replaceIllegal _ c h2 with h4 | h4
    · subst h4; exact ⟨by decide, by decide⟩
    · exact ⟨h4, h3⟩

/-- C9 witness: the sanitizer applied to `" a b<c "` yields `"a-b-c"`,
and its first character is neither illegal nor whitespace. -/
theorem toSafeFolderName_safe_witness :
    toSafeFolderName " a b<c " = "a-b-c" ∧
      isIllegalChar 'a' = false ∧ isJsSpace 'a' = false :=
  ⟨by decide, toSafeFolderName_safe " a b<c " 'a' (by decide)⟩

/-- C2: `patchRootPackageJson` never replaces a pre-existing value —
every script or devDependency key that had a value keeps exactly that
value, every key outside `check`/`format`/`@biomejs/biome` is left
unchanged, and each of those three keys is filled with its fixed value
only when absent. -/
theorem patchRootPackageJson_merge (pkg : PackageJson) (k v : String) :
    (getVal (pkg.scripts.getD []) k = some v →
      getVal ((patchRootPackageJson pkg).scripts.getD []) k = some v)
    ∧ (getVal (pkg.devDependencies.getD []) k = some v →
        getVal ((patchRootPackageJson pkg).devDependencies.getD []) k
          = some v)
    ∧ (k ≠ "check" → k ≠ "format" →
        getVal ((patchRootPackageJson pkg).scripts.getD []) k
          = getVal (pkg.scripts.getD []) k)
    ∧ (k ≠ "@biomejs/biome" →
        getVal ((patchRootPackageJson pkg).devDependencies.getD []) k
          = getVal (pkg.devDependencies.getD []) k)
    ∧ (getVal (pkg.scripts.getD []) "check" = none →
        getVal ((patchRootPackageJson pkg).scripts.getD []) "check"
          = some "biome check .")
    ∧ (getVal (pkg.scripts.getD []) "format" = none →
        getVal ((patchRootPackageJson pkg).scripts.getD []) "format"
          = some "biome check . --write")
    ∧ (getVal (pkg.devDependencies.getD []) "@biomejs/biome" = none →
        getVal ((patchRootPackageJson pkg).devDependencies.getD [])
          "@biomejs/biome" = some "^2.3.10") := by
  refine ⟨?_, ?_, ?_, ?_, ?_, ?_, ?_⟩
  · intro h
    exact getVal_setIfAbsent_of_some _ _ _ _ _
      (getVal_setIfAbsent_of_some _ _ _ _ _ h)
  · intro h
    exact getVal_setIfAbsent_of_some _ _ _ _ _ h
  · intro h1 h2
    rw [show (patchRootPackageJson pkg).scripts.getD [] =
        setIfAbsent (setIfAbsent (pkg.scripts.getD [])
          "check" "biome check .") "format" "biome check . --write"
      from rfl]
    rw [getVal_setIfAbsent_other _ _ _ _ h2,
      getVal_setIfAbsent_other _ _ _ _ h1]
  · intro h1
    exact getVal_setIfAbsent_other _ _ _ _ h1
  · intro h
    exact getVal_setIfAbsent_of_some _ _ _ _ _
      (getVal_setIfAbsent_absent _ _ _ h)
  · intro h
    have h' : getVal (setIfAbsent (pkg.scripts.getD [])
        "check" "biome check .") "format" = none := by
      rwa [getVal_setIfAbsent_other _ _ _ _ (by decide)]
    exact getVal_setIfAbsent_absent _ _ _ h'
  · intro h
    exact getVal_setIfAbsent_absent _ _ _ h

/-- C2 witness: a root manifest whose `check` script pre-exists keeps
it verbatim, and the absent Biome devDependency is added pinned. -/
theorem patchRootPackageJson_merge_witness :
    getVal ((patchRootPackageJson
        ⟨some [("check", "mycheck")], none⟩).scripts.getD []) "check"
      = some "mycheck"
    ∧ getVal ((patchRootPackageJson
        ⟨some [("check", "mycheck")], none⟩).devDependencies.getD [])
        "@biomejs/biome" = some "^2.3.10" :=
  ⟨(patchRootPackageJson_merge ⟨some [("check", "mycheck")], none⟩
      "check" "mycheck").1 (by decide),
   (patchRootPackageJson_merge ⟨some [("check", "mycheck")], none⟩
      "check" "mycheck").2.2.2.2.2.2 (by decide)⟩

/-- C8: `ensureEmptyDir` on an existing empty directory is idempotent:
both consecutive calls succeed without touching the filesystem, and
the directory is still empty afterwards. -/
theorem ensureEmptyDir_idempotent (fs : FsDirs) (dir : String)
    (h : lookupDir fs dir = some []) :
    ensureEmptyDir fs dir = (fs, none)
    ∧ ensureEmptyDir (ensureEmptyDir fs dir).1 dir = (fs, none)
    ∧ lookupDir (ensureEmptyDir (ensureEmptyDir fs dir).1 dir).1 dir
        = some [] := by
  simp [ensureEmptyDir, h]

/-- C8 witness: two consecutive guard calls on a concrete empty
directory. -/
theorem ensureEmptyDir_idempotent_witness :
    ensureEmptyDir [("p", [])] "p" = ([("p", [])], none)
    ∧ ensureEmptyDir (ensureEmptyDir [("p", [])] "p").1 "p"
        = ([("p", [])], none)
    ∧ lookupDir (ensureEmptyDir
        (ensureEmptyDir [("p", [])] "p").1 "p").1 "p" = some [] :=
  ensureEmptyDir_idempotent [("p", [])] "p" (by decide)

/-- C4: when the target directory exists with at least one entry, the
guard fails with `DirectoryNotEmpty` naming that path, the filesystem
is untouched, and the pipeline performs no action at all — in
particular no external generator and no template operation. -/
theorem guard_rejects_nonempty (execOk : Action → Bool) (fs : FsDirs)
    (cwd : String) (plan : ScaffoldPlan) (es : List String)
    (h : lookupDir fs (cwd ++ "/" ++ plan.projectName) = some es)
    (hne : es ≠ []) :
    ensureEmptyDir fs (cwd ++ "/" ++ plan.projectName)
      = (fs, some (.directoryNotEmpty (cwd ++ "/" ++ plan.projectName)))
    ∧ mainPipeline execOk fs cwd plan
      = ([], some (.directoryNotEmpty (cwd ++ "/" ++ plan.projectName)))
    := by
  have hlen : es.length > 0 := List.length_pos.mpr hne
  constructor
  · simp [ensureEmptyDir, h, hlen]
  · simp [mainPipeline, createProject, h, hlen]

/-- C4 witness: target `c/demo` pre-exists with one file: the run
fails with `DirectoryNotEmpty c/demo` and an empty action trace. -/
theorem guard_rejects_nonempty_witness :
    ensureEmptyDir [("c/demo", ["f.txt"])] ("c" ++ "/" ++ "demo")
      = ([("c/demo", ["f.txt"])],
          some (.directoryNotEmpty ("c" ++ "/" ++ "demo")))
    ∧ mainPipeline (fun _ => true) [("c/demo", ["f.txt"])] "c"
        ⟨"demo", .web, false, false⟩
      = ([], some (.directoryNotEmpty ("c" ++ "/" ++ "demo"))) :=
  guard_rejects_nonempty (fun _ => true) [("c/demo", ["f.txt"])] "c"
    ⟨"demo", .web, false, false⟩ ["f.txt"] (by decide) (by decide)

/-- C3: `normalizeTurborepo` runs the web generation step iff the plan
kind is `web` or `full`, and the app generation step together with its
NativeWind setup iff the kind is `app` or `full`; no plan field other
than `kind` influences the action list. -/
theorem normalizeTurborepo_branches (r : String) (plan : ScaffoldPlan) :
    (Action.execCreateNext r ∈ normalizeTurborepo r plan ↔
      (plan.kind = .web ∨ plan.kind = .full))
    ∧ (Action.execCreateExpo r ∈ normalizeTurborepo r plan ↔
        (plan.kind = .app ∨ plan.kind = .full))
    ∧ (Action.setupNativeWind (r ++ "/apps/app") ∈
          normalizeTurborepo r plan ↔
        (plan.kind = .app ∨ plan.kind = .full))
    ∧ (∀ q : ScaffoldPlan, q.kind = plan.kind →
        normalizeTurborepo r q = normalizeTurborepo r plan) := by
  refine ⟨?_, ?_, ?_, ?_⟩
  · cases hk : plan.kind <;>
      simp [normalizeTurborepo, wantsWeb, wantsApp, hk]
  · cases hk : plan.kind <;>
      simp [normalizeTurborepo, wantsWeb, wantsApp, hk]
  · cases hk : plan.kind <;>
      simp [normalizeTurborepo, wantsWeb, wantsApp, hk]
  · intro q hq
    simp [normalizeTurborepo, hq]

/-- C3 witness: for a `web`-kind plan the web generator is in the
trace, and changing every non-kind field leaves the trace unchanged. -/
theorem normalizeTurborepo_branches_witness :
    Action.execCreateNext "r" ∈
      normalizeTurborepo "r" ⟨"demo", .web, false, false⟩
    ∧ normalizeTurborepo "r" ⟨"other", .web, true, true⟩
        = normalizeTurborepo "r" ⟨"demo", .web, false, false⟩ :=
  ⟨(normalizeTurborepo_branches "r" ⟨"demo", .web, false, false⟩).1.mpr
      (Or.inl rfl),
   (normalizeTurborepo_branches "r"
      ⟨"demo", .web, false, false⟩).2.2.2 ⟨"other", .web, true, true⟩ rfl⟩

/-- C10: normalization empties both `apps/` and `packages/` before any
template copy or generator runs — the trace starts with the two
`mkdirp`s and two `emptyDir`s and no later action is an `emptyDir` —
and afterwards `packages/` has no entries while `apps/` holds exactly
`api` plus the conditional `web` and `app` trees. -/
theorem normalizeTurborepo_resets (st : RepoDirs) (r : String)
    (plan : ScaffoldPlan) :
    (normalizeDirs st plan).packagesEntries = []
    ∧ (normalizeDirs st plan).appsEntries =
        ["api"] ++ (if wantsWeb plan.kind then ["web"] else [])
          ++ (if wantsApp plan.kind then ["app"] else [])
    ∧ ∃ rest, normalizeTurborepo r plan =
        [.mkdirp (r ++ "/apps"), .mkdirp (r ++ "/packages"),
         .emptyDir (r ++ "/apps"), .emptyDir (r ++ "/packages")] ++ rest
      ∧ ∀ a ∈ rest, ∀ d, a ≠ Action.emptyDir d := by
  refine ⟨?_, ?_, ?_⟩
  · cases hk : plan.kind <;>
      simp [normalizeDirs, wantsWeb, wantsApp, hk]
  · cases hk : plan.kind <;>
      simp [normalizeDirs, wantsWeb, wantsApp, hk]
  · refine ⟨[.writeFile (r ++ "/pnpm-workspace.yaml") workspaceYamlContent,
      .copyTemplate "root/biome.json" (r ++ "/biome.json"),
      .copyTemplate "root/.npmrc" (r ++ "/.npmrc"),
      .patchRootPkg r,
      .copyTemplate "api" (r ++ "/apps/api")]
      ++ (if wantsWeb plan.kind then [.execCreateNext r] else [])
      ++ (if wantsApp plan.kind then
            [.execCreateExpo r, .setupNativeWind (r ++ "/apps/app")]
          else []), ?_, ?_⟩
    · simp [normalizeTurborepo]
    · intro a ha d heq
      subst heq
      cases hk : plan.kind <;> simp [wantsWeb, wantsApp, hk] at ha

/-- C10 witness: concrete evaluation for a `full` plan. -/
theorem normalizeTurborepo_resets_witness :
    (normalizeDirs ⟨["junk"], ["docs", "ui"]⟩
        ⟨"demo", .full, true, true⟩).packagesEntries = []
    ∧ (normalizeDirs ⟨["junk"], ["docs", "ui"]⟩
        ⟨"demo", .full, true, true⟩).appsEntries
        = ["api"] ++ ["web"] ++ ["app"] :=
  ⟨(normalizeTurborepo_resets ⟨["junk"], ["docs", "ui"]⟩ "r"
      ⟨"demo", .full, true, true⟩).1,
   (normalizeTurborepo_resets ⟨["junk"], ["docs", "ui"]⟩ "r"
      ⟨"demo", .full, true, true⟩).2.1⟩

/-- The content the template tree writes at absolute path `p`, if any:
the last matching file of the tree wins, as with sequential copying. -/
def writtenContent (tree : List (List String × String))
    (dest : List String) (p : List String) : Option String :=
  tree.foldl
    (fun acc e => if p = dest ++ e.1 then some e.2 else acc) none

/-- Seeding the written-content fold with `o` only changes the result
when the tree writes nothing at `p`. -/
theorem writtenContent_fold_seed (dest : List String) (p : List String) :
    ∀ (tree : List (List String × String)) (o : Option String),
      tree.foldl
          (fun acc e => if p = dest ++ e.1 then some e.2 else acc) o =
        match writtenContent tree dest p with
        | some c => some c
        | none => o := by
  intro tree
  induction tree with
  | nil => intro o; rfl
  | cons e tree ih =>
    intro o
    show tree.foldl _ (if p = dest ++ e.1 then some e.2 else o) = _
    rw [ih]
    have hw : writtenContent (e :: tree) dest p =
        match writtenContent tree dest p with
        | some c => some c
        | none => if p = dest ++ e.1 then some e.2 else none := by
      show tree.foldl _ (if p = dest ++ e.1 then some e.2 else none) = _
      rw [ih]
    rw [hw]
    cases writtenContent tree dest p with
    | some c => rfl
    | none => by_cases hp : p = dest ++ e.1 <;> simp [hp]

/-- Pointwise description of `materialize`: a path gets the tree's
content when the tree writes it, and keeps its old content otherwise. -/
theorem materialize_apply (tree : List (List String × String))
    (dest : List String) (fs : Files) (p : List String) :
    materialize tree dest fs p =
      match writtenContent tree dest p with
      | some c => some c
      | none => fs p := by
  induction tree generalizing fs with
  | nil => rfl
  | cons e tree ih =>
    show materialize tree dest
        (fun q => if q = dest ++ e.1 then some e.2 else fs q) p = _
    rw [ih]
    have hw : writtenContent (e :: tree) dest p =
        match writtenContent tree dest p with
        | some c => some c
        | none => if p = dest ++ e.1 then some e.2 else none :=
      writtenContent_fold_seed dest p tree _
    rw [hw]
    cases writtenContent tree dest p with
    | some c => rfl
    | none => by_cases hp : p = dest ++ e.1 <;> simp [hp]

/-- C7: `materialize` is overwrite-idempotent — copying the same
template tree into the same destination twice yields exactly the file
store that one copy yields. -/
theorem materialize_idempotent (tree : List (List String × String))
    (dest : List String) (fs : Files) :
    materialize tree dest (materialize tree dest fs)
      = materialize tree dest fs := by
  funext p
  rw [materialize_apply, materialize_apply]
  cases writtenContent tree dest p with
  | some c => rfl
  | none => rfl

/-- The upward search can only throw the condition naming the starting
directory. -/
theorem searchUp_error_val (ex : List String → Bool)
    (start : List String) :
    ∀ (n : Nat) (dir : List String) (e : TemplatesError),
      searchUp ex start n dir = .error e →
        e = .templateTreeNotFound start := by
  intro n
  induction n with
  | zero =>
    intro dir e h
    cases h
    rfl
  | succ n ih =>
    intro dir e h
    by_cases hx : ex (dir ++ ["templates"])
    · simp [searchUp, hx] at h
    · simp only [searchUp, hx, Bool.false_eq_true, if_false] at h
      exact ih dir.dropLast e h

/-- The upward search fails precisely when none of the `fuel`
candidate directories, one per parent level, exists. -/
theorem searchUp_error_iff (ex : List String → Bool)
    (start : List String) :
    ∀ (n : Nat) (dir : List String),
      searchUp ex start n dir = .error (.templateTreeNotFound start) ↔
        ∀ i < n, ex (nthParent i dir ++ ["templates"]) = false := by
  intro n
  induction n with
  | zero =>
    intro dir
    constructor
    · intro _ i hi
      exact absurd hi (Nat.not_lt_zero i)
    · intro _
      rfl
  | succ n ih =>
    intro dir
    by_cases hx : ex (dir ++ ["templates"])
    · simp only [searchUp, hx, if_true]
      constructor
      · intro h
        cases h
      · intro h
        have h0 := h 0 (Nat.succ_pos n)
        rw [show nthParent 0 dir = dir from rfl] at h0
        rw [hx] at h0
        cases h0
    · simp only [searchUp, hx, Bool.false_eq_true, if_false]
      rw [ih dir.dropLast]
      constructor
      · intro h i hi
        cases i with
        | zero => simpa using hx
        | succ j =>
          exact h j (Nat.lt_of_succ_lt_succ hi)
      · intro h i hi
        exact h (i + 1) (Nat.succ_lt_succ hi)

/-- When the upward search succeeds, it returns the `templates` child
of the nearest ancestor (within the fuel bound) for which it exists. -/
theorem searchUp_ok_spec (ex : List String → Bool)
    (start : List String) :
    ∀ (n : Nat) (dir : List String) (d : List String),
      searchUp ex start n dir = .ok d →
        ∃ i, i < n ∧ d = nthParent i dir ++ ["templates"]
          ∧ ex d = true
          ∧ ∀ j < i, ex (nthParent j dir ++ ["templates"]) = false := by
  intro n
  induction n with
  | zero =>
    intro dir d h
    cases h
  | succ n ih =>
    intro dir d h
    by_cases hx : ex (dir ++ ["templates"])
    · simp only [searchUp, hx, if_true, Except.ok.injEq] at h
      subst h
      exact ⟨0, Nat.succ_pos n, rfl, hx, fun j hj =>
        absurd hj (Nat.not_lt_zero j)⟩
    · simp only [searchUp, hx, Bool.false_eq_true, if_false] at h
      rcases ih dir.dropLast d h with ⟨i, hi, hd, hex, hmin⟩
      refine ⟨i + 1, Nat.succ_lt_succ hi, hd, hex, ?_⟩
      intro j hj
      cases j with
      | zero => simpa using hx
      | succ k =>
        exact hmin k (Nat.lt_of_succ_lt_succ hj)

/-- C6: `templatesDir` walks upward from the program's own directory
one parent level at a time, examining at most 6 levels: it returns the
`templates` child of the nearest ancestor where one exists, and when
all 6 candidates are missing it fails with `TemplateTreeNotFound`
carrying the starting search path — never resolving by a fixed
relative-path depth. -/
theorem templatesDir_search (ex : List String → Bool)
    (start : List String) :
    (∀ e, templatesDir ex start = .error e →
        e = .templateTreeNotFound start)
    ∧ (templatesDir ex start = .error (.templateTreeNotFound start) ↔
        ∀ i < 6, ex (nthParent i start ++ ["templates"]) = false)
    ∧ (∀ d, templatesDir ex start = .ok d →
        ∃ i, i < 6 ∧ d = nthParent i start ++ ["templates"]
          ∧ ex d = true
          ∧ ∀ j < i, ex (nthParent j start ++ ["templates"]) = false) :=
  ⟨fun e h => searchUp_error_val ex start 6 start e h,
   searchUp_error_iff ex start 6 start,
   fun d h => searchUp_ok_spec ex start 6 start d h⟩

/-- C6 witness: with no `templates` directory anywhere, the resolver
throws `TemplateTreeNotFound` naming the starting path; with one at
the grandparent, it finds exactly that one. -/
theorem templatesDir_search_witness :
    templatesDir (fun _ => false) ["a", "b"]
      = .error (.templateTreeNotFound ["a", "b"])
    ∧ templatesDir (fun l => decide (l = ["r", "templates"]))
        ["r", "a", "b"] = .ok ["r", "templates"] :=
  ⟨(templatesDir_search (fun _ => false) ["a", "b"]).2.1.mpr
      (fun _ _ => rfl),
   rfl⟩

/-- C1 counterexample: for the concrete full-kind plan `demo`, the
manifest the code writes is the fixed `apps/*`/`packages/*` list, and
no choice of trailing wildcard makes it the `api`, `web`, `app`,
wildcard list the claim describes. -/
theorem workspaceManifest_counterexample :
    serializeWorkspace (workspaceEntries ⟨"demo", .full, true, true⟩)
      = workspaceYamlContent
    ∧ ¬ ∃ w, serializeWorkspace (specWorkspaceEntries .full w)
        = workspaceYamlContent := by
  constructor
  · rfl
  · rintro ⟨w, h⟩
    have hs : serializeWorkspace (specWorkspaceEntries .full w)
        = ("packages:\n  - \"api\"\n  - \"web\"\n  - \"app\"\n  - \""
            ++ w) ++ "\"\n" := rfl
    rw [hs] at h
    have hl := congrArg String.length h
    simp only [String.length_append] at hl
    have h1 : ("packages:\n  - \"api\"\n  - \"web\"\n  - \"app\"\n  - \""
        : String).length = 45 := rfl
    have h2 : ("\"\n" : String).length = 2 := rfl
    have h3 : workspaceYamlContent.length = 40 := rfl
    rw [h1, h2, h3] at hl
    omega

/-- C1 amended: for every plan, the workspace manifest written at the
project root is a `packages:` list with exactly the two glob entries
`apps/*` then `packages/*` — the same for every plan kind, with no
duplicate entries — and `normalizeTurborepo` writes exactly that
content to `<root>/pnpm-workspace.yaml`. -/
theorem workspaceManifest_fixed (plan : ScaffoldPlan) (r : String) :
    serializeWorkspace (workspaceEntries plan) = workspaceYamlContent
    ∧ workspaceEntries plan = ["apps/*", "packages/*"]
    ∧ (workspaceEntries plan).Nodup
    ∧ (∀ q : ScaffoldPlan, workspaceEntries q = workspaceEntries plan)
    ∧ Action.writeFile (r ++ "/pnpm-workspace.yaml")
        workspaceYamlContent ∈ normalizeTurborepo r plan := by
  refine ⟨rfl, rfl,
    (by decide : (["apps/*", "packages/*"] : List String).Nodup),
    fun q => rfl, ?_⟩
  cases hk : plan.kind <;>
    simp [normalizeTurborepo, wantsWeb, wantsApp, hk]

/-- The post-create command actions (`pnpm install`, `git init`). -/
def isPostAction : Action → Bool
  | .runInstall _ => true
  | .runGitInit _ => true
  | _ => false

/-- A fully successful `runSeq` performed exactly the planned list. -/
theorem runSeq_success (execOk : Action → Bool) :
    ∀ l : List Action, (runSeq execOk l).2 = true →
      (runSeq execOk l).1 = l := by
  intro l
  induction l with
  | nil => intro _; rfl
  | cons a rest ih =>
    intro h
    by_cases hx : execOk a
    · simp only [runSeq, hx, if_true] at h ⊢
      rw [ih h]
    · simp [runSeq, hx] at h

/-- Every action `runSeq` performed was in the planned list. -/
theorem mem_runSeq (execOk : Action → Bool) :
    ∀ (l : List Action) (a : Action),
      a ∈ (runSeq execOk l).1 → a ∈ l := by
  intro l
  induction l with
  | nil => intro a h; exact absurd h (List.not_mem_nil a)
  | cons b rest ih =>
    intro a h
    by_cases hx : execOk b
    · simp only [runSeq, hx, if_true] at h
      rcases List.mem_cons.mp h with h1 | h1
      · exact h1 ▸ List.mem_cons_self b rest
      · exact List.mem_cons_of_mem b (ih a h1)
    · simp only [runSeq, hx, Bool.false_eq_true, if_false] at h
      rcases List.mem_cons.mp h with h1 | h1
      · exact h1 ▸ List.mem_cons_self b rest
      · exact absurd h1 (List.not_mem_nil a)

/-- No action of `normalizeTurborepo` is a post-create command. -/
theorem normalizeTurborepo_no_post (r : String) (plan : ScaffoldPlan) :
    ∀ a ∈ normalizeTurborepo r plan, isPostAction a = false := by
  intro a ha
  cases a <;>
    first
      | rfl
      | (exfalso; cases hk : plan.kind <;>
          simp [normalizeTurborepo, wantsWeb, wantsApp, hk] at ha)

/-- No action of a `createProject` run is a post-create command. -/
theorem createProject_no_post (execOk : Action → Bool) (fs : FsDirs)
    (cwd : String) (plan : ScaffoldPlan) :
    ∀ a ∈ (createProject execOk fs cwd plan).1,
      isPostAction a = false := by
  intro a ha
  have hplanned : ∀ pl : List Action,
      (∀ b ∈ pl, isPostAction b = false) →
      a ∈ (runSeq execOk pl).1 → isPostAction a = false :=
    fun pl hpl hm => hpl a (mem_runSeq execOk pl a hm)
  cases hfs : lookupDir fs (cwd ++ "/" ++ plan.projectName) with
  | some entries =>
    simp only [createProject, hfs] at ha
    by_cases hlen : entries.length > 0
    · rw [if_pos hlen] at ha
      exact absurd ha (List.not_mem_nil a)
    · rw [if_neg hlen] at ha
      refine hplanned _ ?_ ha
      intro b hb
      rcases List.mem_append.mp hb with h1 | h1
      · rcases List.mem_append.mp h1 with h2 | h2
        · rcases List.mem_cons.mp h2 with h3 | h3
          · simp [h3, isPostAction]
          · exact absurd h3 (List.not_mem_nil b)
        · rcases List.mem_cons.mp h2 with h3 | h3
          · simp [h3, isPostAction]
          · exact absurd h3 (List.not_mem_nil b)
      · exact normalizeTurborepo_no_post _ _ b h1
  | none =>
    simp only [createProject, hfs] at ha
    refine hplanned _ ?_ ha
    intro b hb
    rcases List.mem_append.mp hb with h1 | h1
    · rcases List.mem_append.mp h1 with h2 | h2
      · exact absurd h2 (List.not_mem_nil b)
      · rcases List.mem_cons.mp h2 with h3 | h3
        · simp [h3, isPostAction]
        · exact absurd h3 (List.not_mem_nil b)
    · exact normalizeTurborepo_no_post _ _ b h1

/-- C5: in every successful run, the whole (successful) materialization
trace comes first and contains no post-create command; then `pnpm
install` appears exactly when `plan.install` is set and `git init`
exactly when `plan.git` is set, in that order, each exactly once. -/
theorem postCreate_after_materialize (execOk : Action → Bool)
    (fs : FsDirs) (cwd : String) (plan : ScaffoldPlan)
    (tr : List Action)
    (h : mainPipeline execOk fs cwd plan = (tr, none)) :
    ∃ tc, createProject execOk fs cwd plan = (tc, none)
      ∧ tr = tc
          ++ (if plan.install then
                [Action.runInstall (cwd ++ "/" ++ plan.projectName)]
              else [])
          ++ (if plan.git then
                [Action.runGitInit (cwd ++ "/" ++ plan.projectName)]
              else [])
      ∧ (∀ a ∈ tc, isPostAction a = false)
      ∧ tr.count (Action.runInstall (cwd ++ "/" ++ plan.projectName))
          = (if plan.install then 1 else 0)
      ∧ tr.count (Action.runGitInit (cwd ++ "/" ++ plan.projectName))
          = (if plan.git then 1 else 0) := by
  rcases hcp : createProject execOk fs cwd plan with ⟨tc, oe⟩
  cases oe with
  | some e =>
    exfalso
    unfold mainPipeline at h
    rw [hcp] at h
    exact Option.noConfusion (congrArg Prod.snd h)
  | none =>
    unfold mainPipeline at h
    rw [hcp] at h
    rcases hr : runSeq execOk
        (postCreate (cwd ++ "/" ++ plan.projectName) plan) with ⟨t2, ok2⟩
    rw [hr] at h
    cases ok2 with
    | false => exact absurd (congrArg Prod.snd h) (by simp)
    | true =>
      have ht2 : t2 = postCreate (cwd ++ "/" ++ plan.projectName) plan := by
        have := runSeq_success execOk
          (postCreate (cwd ++ "/" ++ plan.projectName) plan)
        rw [hr] at this
        exact this rfl
      have htr : tr = tc
          ++ (if plan.install then
                [Action.runInstall (cwd ++ "/" ++ plan.projectName)]
              else [])
          ++ (if plan.git then
                [Action.runGitInit (cwd ++ "/" ++ plan.projectName)]
              else []) := by
        have h1 := congrArg Prod.fst h
        simp only at h1
        rw [← h1, ht2, postCreate, List.append_assoc]
      have hnp : ∀ a ∈ tc, isPostAction a = false := by
        intro a haTc
        have := createProject_no_post execOk fs cwd plan a
        rw [hcp] at this
        exact this haTc
      have hmemI : Action.runInstall (cwd ++ "/" ++ plan.projectName)
          ∉ tc := by
        intro hmem
        have := hnp _ hmem
        simp [isPostAction] at this
      have hmemG : Action.runGitInit (cwd ++ "/" ++ plan.projectName)
          ∉ tc := by
        intro hmem
        have := hnp _ hmem
        simp [isPostAction] at this
      refine ⟨tc, rfl, htr, hnp, ?_, ?_⟩
      · rw [htr]
        cases hi : plan.install <;> cases hg : plan.git <;>
          simp [List.count_append, List.count_eq_zero.mpr hmemI,
            List.count_cons, List.count_nil]
      · rw [htr]
        cases hi : plan.install <;> cases hg : plan.git <;>
          simp [List.count_append, List.count_eq_zero.mpr hmemG,
            List.count_cons, List.count_nil]

/-- C5 witness: a concrete successful full run with both flags set —
the trace decomposes into materialization then install then git
init. -/
theorem postCreate_after_materialize_witness :
    ∃ tc, createProject (fun _ => true) [] "c"
        ⟨"demo", .web, true, true⟩ = (tc, none)
      ∧ (mainPipeline (fun _ => true) [] "c"
            ⟨"demo", .web, true, true⟩).1
          = tc ++ [Action.runInstall ("c" ++ "/" ++ "demo")]
              ++ [Action.runGitInit ("c" ++ "/" ++ "demo")]
      ∧ (∀ a ∈ tc, isPostAction a = false)
      ∧ ((mainPipeline (fun _ => true) [] "c"
            ⟨"demo", .web, true, true⟩).1).count
          (Action.runInstall ("c" ++ "/" ++ "demo")) = 1
      ∧ ((mainPipeline (fun _ => true) [] "c"
            ⟨"demo", .web, true, true⟩).1).count
          (Action.runGitInit ("c" ++ "/" ++ "demo")) = 1 := by
  have h := postCreate_after_materialize (fun _ => true) [] "c"
    ⟨"demo", .web, true, true⟩
    (mainPipeline (fun _ => true) [] "c" ⟨"demo", .web, true, true⟩).1
    rfl
  simpa using h

end CreateMonoInit
